import Mathlib

/-!
Verification of the in-memory asset-catalog model of
`src/package/husdplugins/datasources/library.py` (`Model`, `AssetLibrary`).

Python dictionaries are embedded as insertion-ordered association lists
(`List (String × α)`); Python keys are unique by construction, and every
operation below goes through `dictGet` / `dictInsert` / `dictErase`, which
match Python `dict.get`, `dict.__setitem__` and `dict.pop` pointwise.
Python `set` (used for `Model.items_updated`) is embedded as an
insertion-ordered duplicate-free list maintained by `setAdd`.
Bytes values are embedded as `List Nat`.
-/

/-- Python `dict.get(k)`: first (and, with unique keys, only) binding of `k`. -/
def dictGet {α : Type} (d : List (String × α)) (k : String) : Option α :=
  (d.find? (fun p => p.1 == k)).map (fun p => p.2)

/-- Python `d[k] = v`: update in place when the key exists, else append. -/
def dictInsert {α : Type} (d : List (String × α)) (k : String) (v : α) :
    List (String × α) :=
  if d.any (fun p => p.1 == k) then
    d.map (fun p => if p.1 == k then (k, v) else p)
  else
    d ++ [(k, v)]

/-- Python `d.pop(k, None)`'s removal effect: drop the binding of `k`. -/
def dictErase {α : Type} (d : List (String × α)) (k : String) :
    List (String × α) :=
  d.filter (fun p => p.1 != k)

/-- Python `set.add`: append only when absent, preserving insertion order. -/
def setAdd (s : List String) (x : String) : List String :=
  if x ∈ s then s else s ++ [x]

/-- `Item` dataclass of library.py (lines 21-39), with its field order.
`children` and `meta_data` are Python dicts of strings; `blind_data` is
declared `str` in the source; thumbnail bytes are `List Nat`. -/
structure Item where
  id : String
  parent : String := ""
  children : List (String × String) := []
  label : String := ""
  file_path : String := ""
  thumbnail_file_path : String := ""
  thumbnail_file_content : List Nat := []
  creation_date : Int := 0
  modification_date : Int := 0
  meta_data : List (String × String) := []
  blind_data : String := ""
  tags : List String := []
  color : String := ""
  star : Bool := false
deriving DecidableEq

/-- `Model` of library.py (lines 42-57): live items, dirty-set,
soft-deleted items and the tag vocabulary. -/
structure Model where
  identifier : String
  items : List (String × Item) := []
  items_updated : List String := []
  items_deleted : List (String × Item) := []
  tags : List String := []
deriving DecidableEq

/-- `Model.__init__` (lines 43-57). -/
def initModel (identifier : String) : Model :=
  { identifier := identifier }

/-- The attribute names (`role` strings) of an `Item`, i.e. the valid
field names used by `Model.get_data` / `Model.set_data`. -/
inductive Role where
  | id
  | parent
  | children
  | label
  | file_path
  | thumbnail_file_path
  | thumbnail_file_content
  | creation_date
  | modification_date
  | meta_data
  | blind_data
  | tags
  | color
  | star
deriving DecidableEq

/-- The Python type stored in each `Item` field. -/
abbrev RoleType : Role → Type
  | .id => String
  | .parent => String
  | .children => List (String × String)
  | .label => String
  | .file_path => String
  | .thumbnail_file_path => String
  | .thumbnail_file_content => List Nat
  | .creation_date => Int
  | .modification_date => Int
  | .meta_data => List (String × String)
  | .blind_data => String
  | .tags => List String
  | .color => String
  | .star => Bool

/-- `getattr(item, role)` for each valid role. -/
def getRole (it : Item) : (r : Role) → RoleType r
  | .id => it.id
  | .parent => it.parent
  | .children => it.children
  | .label => it.label
  | .file_path => it.file_path
  | .thumbnail_file_path => it.thumbnail_file_path
  | .thumbnail_file_content => it.thumbnail_file_content
  | .creation_date => it.creation_date
  | .modification_date => it.modification_date
  | .meta_data => it.meta_data
  | .blind_data => it.blind_data
  | .tags => it.tags
  | .color => it.color
  | .star => it.star

/-- `setattr(item, role, v)` for each valid role. -/
def setRole (it : Item) : (r : Role) → RoleType r → Item
  | .id, v => { it with id := v }
  | .parent, v => { it with parent := v }
  | .children, v => { it with children := v }
  | .label, v => { it with label := v }
  | .file_path, v => { it with file_path := v }
  | .thumbnail_file_path, v => { it with thumbnail_file_path := v }
  | .thumbnail_file_content, v => { it with thumbnail_file_content := v }
  | .creation_date, v => { it with creation_date := v }
  | .modification_date, v => { it with modification_date := v }
  | .meta_data, v => { it with meta_data := v }
  | .blind_data, v => { it with blind_data := v }
  | .tags, v => { it with tags := v }
  | .color, v => { it with color := v }
  | .star, v => { it with star := v }

/-- Python `==` on two string-valued dicts: key-set-wise, order-independent. -/
def pyDictEq (a b : List (String × String)) : Bool :=
  a.all (fun p => dictGet b p.1 == some p.2) &&
    b.all (fun p => dictGet a p.1 == some p.2)

/-- Python `==` between the current field value and the new value in
`Model.set_data`.  Dict-valued fields compare order-independently (Python
dict equality); every other field type compares structurally, which agrees
with Python `==` on `str`, `bytes`, `int`, `bool` and `list[str]`. -/
def pyEqRole : (r : Role) → RoleType r → RoleType r → Bool
  | .id, a, b => (a : String) == b
  | .parent, a, b => (a : String) == b
  | .children, a, b => pyDictEq a b
  | .label, a, b => (a : String) == b
  | .file_path, a, b => (a : String) == b
  | .thumbnail_file_path, a, b => (a : String) == b
  | .thumbnail_file_content, a, b => (a : List Nat) == b
  | .creation_date, a, b => (a : Int) == b
  | .modification_date, a, b => (a : Int) == b
  | .meta_data, a, b => pyDictEq a b
  | .blind_data, a, b => (a : String) == b
  | .tags, a, b => (a : List String) == b
  | .color, a, b => (a : String) == b
  | .star, a, b => (a : Bool) == b

/-- `Model.get_tags` (lines 59-64). -/
def Model.get_tags (m : Model) : List String :=
  m.tags

/-- `Model.add_tag` (lines 66-78). -/
def Model.add_tag (m : Model) (tag : String) : Bool × Model :=
  if tag ∈ m.tags then (false, m)
  else (true, { m with tags := m.tags ++ [tag] })

/-- `Model.delete_tag` (lines 80-105).  Returns `none` when the Python code
raises: on line 100 the source executes `item.tags.remove(item)` — it passes
the `Item` object itself, not the tag string, to `list.remove`; an `Item`
compares unequal to every string, so `list.remove` raises `ValueError` on
the first live item that carries the tag.  That line is reached exactly when
the tag is assigned to some live item and deletion is forced; no state is
mutated before the raise. -/
def Model.delete_tag (m : Model) (tag : String) (delete_if_assigned : Bool) :
    Option (Bool × Model) :=
  let tag_assigned := m.items.any (fun p => tag ∈ p.2.tags)
  if !delete_if_assigned && tag_assigned then
    some (false, m)
  else if tag_assigned then
    none
  else
    let tag_exists := tag ∈ m.tags
    if tag_exists then
      some (tag_assigned || tag_exists, { m with tags := m.tags.erase tag })
    else
      some (tag_assigned || tag_exists, m)

/-- `Model.get_item_ids` (lines 107-113). -/
def Model.get_item_ids (m : Model) : List String :=
  m.items.map (fun p => p.1)

/-- `Model.get_item_updated_ids` (lines 115-124): snapshot the dirty-set
and clear it. -/
def Model.get_item_updated_ids (m : Model) : List String × Model :=
  (m.items_updated, { m with items_updated := [] })

/-- `Model.set_item_mark_deleted` (lines 126-137): pop the id from the live
mapping; when present, file the item under the deleted mapping. -/
def Model.set_item_mark_deleted (m : Model) (item_id : String) : Bool × Model :=
  match dictGet m.items item_id with
  | none => (false, m)
  | some item =>
      (true, { m with
                items := dictErase m.items item_id,
                items_deleted := dictInsert m.items_deleted item_id item })

/-- `Model.set_item_mark_undeleted` (lines 139-150): pop the id from the
deleted mapping; when present, file the item back under the live mapping. -/
def Model.set_item_mark_undeleted (m : Model) (item_id : String) : Bool × Model :=
  match dictGet m.items_deleted item_id with
  | none => (false, m)
  | some item =>
      (true, { m with
                items_deleted := dictErase m.items_deleted item_id,
                items := dictInsert m.items item_id item })

/-- `Model.add_item` (lines 152-159): insert under `item.id` (silently
overwriting), then register each of the item's tags into the vocabulary. -/
def Model.add_item (m : Model) (item : Item) : Model :=
  let m1 := { m with items := dictInsert m.items item.id item }
  item.tags.foldl (fun acc t => (Model.add_tag acc t).2) m1

/-- `Model.get_data` (lines 161-179).  `fs` embeds the filesystem used by
the thumbnail lazy load (`os.path.isfile` + `open(...).read()`, text-mode
quirk abstracted to the byte content): `fs path = some content` iff `path`
is a readable file.  On an absent id the Python `item` is `None`, so
`getattr` yields `None` for every role; the `thumbnail_file_content`
special case then rebinds `data = b''` and skips the guarded file read. -/
def Model.get_data (fs : String → Option (List Nat)) (m : Model)
    (item_id : String) : (r : Role) → Option (RoleType r) × Model
  | .thumbnail_file_content =>
    match dictGet m.items item_id with
    | none => (some [], m)
    | some item =>
      if item.thumbnail_file_content.isEmpty then
        if item.thumbnail_file_path ≠ "" then
          match fs item.thumbnail_file_path with
          | some content =>
              let item2 := { item with thumbnail_file_content := content }
              (some content, { m with items := dictInsert m.items item_id item2 })
          | none => (some [], m)
        else (some [], m)
      else (some item.thumbnail_file_content, m)
  | r =>
    match dictGet m.items item_id with
    | none => (none, m)
    | some item => (some (getRole item r), m)

/-- `Model.set_data` (lines 181-199): `False` when the id is absent or the
new value equals (Python `==`) the current one; otherwise set the field,
enqueue the id into the dirty-set and return `True`. -/
def Model.set_data (m : Model) (item_id : String) (r : Role)
    (v : RoleType r) : Bool × Model :=
  match dictGet m.items item_id with
  | none => (false, m)
  | some item =>
    if pyEqRole r (getRole item r) v then (false, m)
    else
      (true, { m with
                items := dictInsert m.items item_id (setRole item r v),
                items_updated := setAdd m.items_updated item_id })

/-- `AssetLibrary.markItemsForDeletion` (lines 408-420): apply the per-id
soft delete to every id in order, collect the booleans, return their
conjunction. -/
def AssetLibrary.markItemsForDeletion (m : Model) (item_ids : List String) :
    Bool × Model :=
  let res := item_ids.foldl
    (fun (acc : List Bool × Model) item_id =>
      let r := Model.set_item_mark_deleted acc.2 item_id
      (acc.1 ++ [r.1], r.2))
    (([] : List Bool), m)
  (res.1.all (fun b => b), res.2)

/-- `AssetLibrary.unmarkItemsForDeletion` (lines 422-435). -/
def AssetLibrary.unmarkItemsForDeletion (m : Model) (item_ids : List String) :
    Bool × Model :=
  let res := item_ids.foldl
    (fun (acc : List Bool × Model) item_id =>
      let r := Model.set_item_mark_undeleted acc.2 item_id
      (acc.1 ++ [r.1], r.2))
    (([] : List Bool), m)
  (res.1.all (fun b => b), res.2)

/-- Python `<=` on strings: lexicographic comparison of code points. -/
def strLeChars : List Char → List Char → Bool
  | [], _ => true
  | _ :: _, [] => false
  | a :: as, b :: bs =>
    if a.toNat < b.toNat then true
    else if b.toNat < a.toNat then false
    else strLeChars as bs

/-- Python `<=` on strings, on the `String` wrapper. -/
def pyStrLe (a b : String) : Bool :=
  strLeChars a.toList b.toList

/-- One insertion step of a stable insertion sort by `pyStrLe`. -/
def pyInsert (x : String) : List String → List String
  | [] => [x]
  | y :: ys => if pyStrLe x y then x :: y :: ys else y :: pyInsert x ys

/-- Python `sorted` on a list of strings.  `sorted` is the (unique, since
string equality is literal identity) order-preserving arrangement by
code-point lexicographic order; a stable insertion sort computes it. -/
def pySorted : List String → List String
  | [] => []
  | x :: xs => pyInsert x (pySorted xs)

/-- `AssetLibrary.tags` (lines 566-578): concatenate the item's own tags
with the whole vocabulary and sort.  First component `none` embeds the
`TypeError` raised by `list(None)` when the id is absent (`get_data`
returns `None` for role `"tags"` on an absent id). -/
def AssetLibrary.tags (fs : String → Option (List Nat)) (m : Model)
    (item_id : String) : Option (List String) × Model :=
  if item_id = "" then (some (pySorted ([] ++ Model.get_tags m)), m)
  else
    match Model.get_data fs m item_id .tags with
    | (none, m1) => (none, m1)
    | (some item_tags, m1) =>
        (some (pySorted ((item_tags : List String) ++ Model.get_tags m1)), m1)

/-!
Persistence (`Model.save` lines 221-235, `Model.load` lines 201-219).
`Model.save` serializes `{"identifier": ..., "items": {...}, "tags": [...]}`
with `json.dumps`, then replaces every double quote by the `|||` sentinel
and writes the result into an environment variable via `hou.hscript`;
`hou.getenv` returns that exact string on load (the store is the host's
environment table, embedded as the identity on the stored string).
`json.dumps` / `json.loads` are embedded below: the printer produces the
default Python formatting (`", "` and `": "` separators, minimal decimal
integers, `"`/`\` string escapes), and the parser is a strict recursive
descent over the produced grammar (objects, arrays, strings, integers,
booleans, null) — the only JSON feature of the library not modelled is
floating-point numbers, which this repository never serializes.
-/

/-- Parsed JSON values (`json.loads` results). -/
inductive JVal where
  | jnull : JVal
  | jbool : Bool → JVal
  | jint : Int → JVal
  | jstr : List Char → JVal
  | jarr : List JVal → JVal
  | jobj : List (List Char × JVal) → JVal

/-- `json.dumps` escaping inside string literals (quote and backslash;
this repository's data contains no control characters). -/
def escapeJsonStr : List Char → List Char
  | [] => []
  | c :: rest =>
    if c = '\x22' then '\\' :: '\x22' :: escapeJsonStr rest
    else if c = '\\' then '\\' :: '\\' :: escapeJsonStr rest
    else c :: escapeJsonStr rest

/-- `json.dumps` of a string value. -/
def dumpStr (s : String) : List Char :=
  '\x22' :: (escapeJsonStr s.toList ++ ['\x22'])

def digitChar (n : Nat) : Char := Char.ofNat (48 + n)

def natDigitsAux : Nat → Nat → List Char
  | 0, _ => []
  | f + 1, n =>
    if n < 10 then [digitChar n]
    else natDigitsAux f (n / 10) ++ [digitChar (n % 10)]

/-- Minimal decimal rendering of a natural number. -/
def natDump (n : Nat) : List Char := natDigitsAux (n + 1) n

/-- `json.dumps` of a Python int. -/
def intDump (n : Int) : List Char :=
  if n < 0 then '-' :: natDump n.natAbs else natDump n.natAbs

/-- Join with the default `json.dumps` item separator `", "`. -/
def joinCommaSpace : List (List Char) → List Char
  | [] => []
  | [x] => x
  | x :: y :: rest => x ++ ',' :: ' ' :: joinCommaSpace (y :: rest)

/-- One `"key": value` member with the default `": "` separator. -/
def dumpPair (k : String) (v : List Char) : List Char :=
  dumpStr k ++ ':' :: ' ' :: v

/-- `json.dumps` of a list of strings. -/
def dumpStrList (l : List String) : List Char :=
  '[' :: (joinCommaSpace (l.map dumpStr) ++ [']'])

/-- `json.dumps` of a dict of strings (insertion order). -/
def dumpStrDict (d : List (String × String)) : List Char :=
  '\x7b' :: (joinCommaSpace (d.map (fun kv => dumpPair kv.1 (dumpStr kv.2))) ++ ['\x7d'])

/-- `json.dumps` of a Python bool. -/
def dumpBool (b : Bool) : List Char :=
  if b then ['t', 'r', 'u', 'e'] else ['f', 'a', 'l', 's', 'e']

/-- `json.dumps` of one item's `__dict__` with `thumbnail_file_content`
popped (`Model.save` lines 228-232): the dataclass field order, minus the
thumbnail bytes. -/
def dumpItem (it : Item) : List Char :=
  '\x7b' :: (joinCommaSpace [
    dumpPair "id" (dumpStr it.id),
    dumpPair "parent" (dumpStr it.parent),
    dumpPair "children" (dumpStrDict it.children),
    dumpPair "label" (dumpStr it.label),
    dumpPair "file_path" (dumpStr it.file_path),
    dumpPair "thumbnail_file_path" (dumpStr it.thumbnail_file_path),
    dumpPair "creation_date" (intDump it.creation_date),
    dumpPair "modification_date" (intDump it.modification_date),
    dumpPair "meta_data" (dumpStrDict it.meta_data),
    dumpPair "blind_data" (dumpStr it.blind_data),
    dumpPair "tags" (dumpStrList it.tags),
    dumpPair "color" (dumpStr it.color),
    dumpPair "star" (dumpBool it.star)] ++ ['\x7d'])

/-- `json.dumps(data)` in `Model.save` (lines 226-233): the serialized
catalog before quote escaping.  The `"items"` object is keyed by each
item's `id` attribute, as in `data["items"][item.id] = item_data`. -/
def saveChars (m : Model) : List Char :=
  '\x7b' :: (joinCommaSpace [
    dumpPair "identifier" (dumpStr m.identifier),
    dumpPair "items"
      ('\x7b' :: (joinCommaSpace
          (m.items.map (fun p => dumpPair p.2.id (dumpItem p.2))) ++ ['\x7d'])),
    dumpPair "tags" (dumpStrList m.tags)] ++ ['\x7d'])

/-- `.replace('"', '|||')` (line 233): the quote-to-sentinel escape
applied before storing. -/
def escapeQuotes : List Char → List Char
  | [] => []
  | c :: rest =>
    if c = '\x22' then '|' :: '|' :: '|' :: escapeQuotes rest
    else c :: escapeQuotes rest

/-- `.replace('|||', '"')` (line 215): the sentinel-to-quote unescape,
left-to-right and non-overlapping like Python `str.replace`. -/
def unescapeTriplePipe : List Char → List Char
  | '|' :: '|' :: '|' :: rest => '\x22' :: unescapeTriplePipe rest
  | c :: rest => c :: unescapeTriplePipe rest
  | [] => []

/-- The string `Model.save` stores into the environment variable:
the JSON text with every double quote replaced by `|||`. -/
def save_stored (m : Model) : List Char :=
  escapeQuotes (saveChars m)

def skipWs : List Char → List Char
  | c :: rest =>
    if c = ' ' ∨ c = '\t' ∨ c = '\n' ∨ c = '\r' then skipWs rest else c :: rest
  | [] => []

/-- JSON string-literal body: characters up to the closing quote, with
`\` escapes decoded (`\u` escapes are not modelled; this repository
serializes none). -/
def parseStrBody : List Char → Option (List Char × List Char)
  | [] => none
  | '\x22' :: rest => some ([], rest)
  | '\\' :: e :: rest =>
    let dec : Option Char :=
      if e = '\x22' then some '\x22'
      else if e = '\\' then some '\\'
      else if e = '/' then some '/'
      else if e = 'n' then some '\n'
      else if e = 't' then some '\t'
      else if e = 'r' then some '\r'
      else if e = 'b' then some (Char.ofNat 8)
      else if e = 'f' then some (Char.ofNat 12)
      else none
    match dec with
    | some d => (parseStrBody rest).map (fun p => (d :: p.1, p.2))
    | none => none
  | c :: rest => (parseStrBody rest).map (fun p => (c :: p.1, p.2))

def isDigitChar (c : Char) : Bool := 48 ≤ c.toNat && c.toNat ≤ 57

/-- Consume a run of decimal digits, accumulating their value. -/
def parseDigitsAux : List Char → Nat → Nat × List Char
  | [], acc => (acc, [])
  | c :: rest, acc =>
    if isDigitChar c then parseDigitsAux rest (acc * 10 + (c.toNat - 48))
    else (acc, c :: rest)

/-- Fuel-indexed mutually recursive JSON parsers: a value parser, an
array-tail parser (after a non-empty `[`), and an object-member parser
(after a non-empty opening brace).  Each returns the parsed piece and the
unconsumed remainder; `none` is a `json.JSONDecodeError`. -/
def parsers (fuel : Nat) :
    (List Char → Option (JVal × List Char)) ×
    (List Char → Option (List JVal × List Char)) ×
    (List Char → Option (List (List Char × JVal) × List Char)) :=
  match fuel with
  | 0 => (fun _ => none, fun _ => none, fun _ => none)
  | f + 1 =>
    let P := parsers f
    (fun cs =>
      match skipWs cs with
      | [] => none
      | c :: rest =>
        if c = '\x22' then
          (parseStrBody rest).map (fun p => (JVal.jstr p.1, p.2))
        else if c = '[' then
          match skipWs rest with
          | ']' :: r2 => some (JVal.jarr [], r2)
          | r2 => (P.2.1 r2).map (fun p => (JVal.jarr p.1, p.2))
        else if c = '\x7b' then
          match skipWs rest with
          | '\x7d' :: r2 => some (JVal.jobj [], r2)
          | r2 => (P.2.2 r2).map (fun p => (JVal.jobj p.1, p.2))
        else if c = 't' then
          match rest with
          | 'r' :: 'u' :: 'e' :: r2 => some (JVal.jbool true, r2)
          | _ => none
        else if c = 'f' then
          match rest with
          | 'a' :: 'l' :: 's' :: 'e' :: r2 => some (JVal.jbool false, r2)
          | _ => none
        else if c = 'n' then
          match rest with
          | 'u' :: 'l' :: 'l' :: r2 => some (JVal.jnull, r2)
          | _ => none
        else if c = '-' then
          match rest with
          | d :: _ =>
            if isDigitChar d then
              let p := parseDigitsAux rest 0
              some (JVal.jint (-(p.1 : Int)), p.2)
            else none
          | [] => none
        else if isDigitChar c then
          let p := parseDigitsAux (c :: rest) 0
          some (JVal.jint (p.1 : Int), p.2)
        else none,
     fun cs => do
      let (v, r) ← P.1 cs
      match skipWs r with
      | ',' :: r2 => (P.2.1 (skipWs r2)).map (fun p => (v :: p.1, p.2))
      | ']' :: r2 => some ([v], r2)
      | _ => none,
     fun cs =>
      match skipWs cs with
      | '\x22' :: r => do
          let (k, r1) ← parseStrBody r
          match skipWs r1 with
          | ':' :: r2 => do
              let (v, r3) ← P.1 (skipWs r2)
              match skipWs r3 with
              | ',' :: r4 =>
                  (P.2.2 (skipWs r4)).map (fun p => ((k, v) :: p.1, p.2))
              | '\x7d' :: r4 => some ([(k, v)], r4)
              | _ => none
          | _ => none
      | _ => none)

/-- `json.loads`: parse one JSON document and require only whitespace
after it.  The fuel bound exceeds any possible recursion depth, which
consumes at least one input character every two levels. -/
def jsonLoads (cs : List Char) : Option JVal :=
  match (parsers (2 * cs.length + 4)).1 cs with
  | some (v, rest) => if skipWs rest = [] then some v else none
  | none => none

/-- `Model.load` line 215 applied to the stored string:
`data = json.loads(data).replace('|||', '"')` parses the raw stored text
FIRST and only then would call `.replace` on the parsed result.  `none`
embeds a raised exception: `json.JSONDecodeError` when parsing the
sentinel-escaped text fails, and `AttributeError` when the parsed value is
not a string (only `str` has `.replace`; a parsed dict would raise). -/
def load_parse (stored : List Char) : Option JVal :=
  match jsonLoads stored with
  | none => none
  | some (JVal.jstr s) => some (JVal.jstr (unescapeTriplePipe s))
  | some _ => none

/-- The JSON value `Model.save`'s serialization denotes: what a correctly
ordered `json.loads(stored.replace('|||', '"'))` would reconstruct. -/
def jvalOfItem (it : Item) : JVal :=
  JVal.jobj [
    ("id".toList, JVal.jstr it.id.toList),
    ("parent".toList, JVal.jstr it.parent.toList),
    ("children".toList, JVal.jobj (it.children.map
        (fun kv => (kv.1.toList, JVal.jstr kv.2.toList)))),
    ("label".toList, JVal.jstr it.label.toList),
    ("file_path".toList, JVal.jstr it.file_path.toList),
    ("thumbnail_file_path".toList, JVal.jstr it.thumbnail_file_path.toList),
    ("creation_date".toList, JVal.jint it.creation_date),
    ("modification_date".toList, JVal.jint it.modification_date),
    ("meta_data".toList, JVal.jobj (it.meta_data.map
        (fun kv => (kv.1.toList, JVal.jstr kv.2.toList)))),
    ("blind_data".toList, JVal.jstr it.blind_data.toList),
    ("tags".toList, JVal.jarr (it.tags.map (fun t => JVal.jstr t.toList))),
    ("color".toList, JVal.jstr it.color.toList),
    ("star".toList, JVal.jbool it.star)]

/-- The whole saved catalog as a JSON value. -/
def jvalOfModel (m : Model) : JVal :=
  JVal.jobj [
    ("identifier".toList, JVal.jstr m.identifier.toList),
    ("items".toList, JVal.jobj (m.items.map
        (fun p => (p.2.id.toList, jvalOfItem p.2)))),
    ("tags".toList, JVal.jarr (m.tags.map (fun t => JVal.jstr t.toList)))]

/-- Sortedness with respect to Python string comparison. -/
def StrSorted (l : List String) : Prop :=
  l.Pairwise (fun a b => pyStrLe a b = true)

/-- Catalog states reachable through the catalog mutators (`add_item`,
`set_data`, the two deletion markers, the tag operations, and a dirty-set
drain) from a freshly constructed model. -/
inductive Reach : Model → Prop where
  | init (identifier : String) : Reach (initModel identifier)
  | add_item {m : Model} (it : Item) : Reach m → Reach (Model.add_item m it)
  | set_data {m : Model} (item_id : String) (r : Role) (v : RoleType r) :
      Reach m → Reach (Model.set_data m item_id r v).2
  | mark_deleted {m : Model} (item_id : String) :
      Reach m → Reach (Model.set_item_mark_deleted m item_id).2
  | unmark_deleted {m : Model} (item_id : String) :
      Reach m → Reach (Model.set_item_mark_undeleted m item_id).2
  | add_tag {m : Model} (t : String) : Reach m → Reach (Model.add_tag m t).2
  | delete_tag {m m2 : Model} {t : String} {b r : Bool} :
      Reach m → Model.delete_tag m t b = some (r, m2) → Reach m2
  | drain {m : Model} : Reach m → Reach (Model.get_item_updated_ids m).2

/-- Like `Reach`, but `add_item` is only allowed for an id that is not
currently soft-deleted. -/
inductive ReachSafe : Model → Prop where
  | init (identifier : String) : ReachSafe (initModel identifier)
  | add_item {m : Model} (it : Item) :
      ReachSafe m → dictGet m.items_deleted it.id = none →
      ReachSafe (Model.add_item m it)
  | set_data {m : Model} (item_id : String) (r : Role) (v : RoleType r) :
      ReachSafe m → ReachSafe (Model.set_data m item_id r v).2
  | mark_deleted {m : Model} (item_id : String) :
      ReachSafe m → ReachSafe (Model.set_item_mark_deleted m item_id).2
  | unmark_deleted {m : Model} (item_id : String) :
      ReachSafe m → ReachSafe (Model.set_item_mark_undeleted m item_id).2
  | add_tag {m : Model} (t : String) : ReachSafe m → ReachSafe (Model.add_tag m t).2
  | delete_tag {m m2 : Model} {t : String} {b r : Bool} :
      ReachSafe m → Model.delete_tag m t b = some (r, m2) → ReachSafe m2
  | drain {m : Model} : ReachSafe m → ReachSafe (Model.get_item_updated_ids m).2

/-- Each id lives in at most one of the live and deleted mappings. -/
def liveDeletedDisjoint (m : Model) : Prop :=
  ∀ j : String, dictGet m.items j = none ∨ dictGet m.items_deleted j = none

/-- `AssetLibrary.deleteTag` (lines 511-526): direct delegation to
`Model.delete_tag`. -/
def AssetLibrary.deleteTag (m : Model) (tag : String) (delete_if_assigned : Bool) :
    Option (Bool × Model) :=
  Model.delete_tag m tag delete_if_assigned

/-- Sequential success of the per-id soft delete over a batch: every
`set_item_mark_deleted` call in order returned `True`. -/
def allMarkOk : Model → List String → Bool
  | _, [] => true
  | m, item_id :: rest =>
    (Model.set_item_mark_deleted m item_id).1 &&
      allMarkOk (Model.set_item_mark_deleted m item_id).2 rest

/-- The state after unconditionally applying the per-id soft delete to
every id of the batch in order. -/
def applyMarks (m : Model) (ids : List String) : Model :=
  ids.foldl (fun acc item_id => (Model.set_item_mark_deleted acc item_id).2) m

/-- Sequential success of the per-id restore over a batch. -/
def allUnmarkOk : Model → List String → Bool
  | _, [] => true
  | m, item_id :: rest =>
    (Model.set_item_mark_undeleted m item_id).1 &&
      allUnmarkOk (Model.set_item_mark_undeleted m item_id).2 rest

/-- The state after unconditionally applying the per-id restore to every
id of the batch in order. -/
def applyUnmarks (m : Model) (ids : List String) : Model :=
  ids.foldl (fun acc item_id => (Model.set_item_mark_undeleted acc item_id).2) m

/-- The list of per-id booleans collected by the batch loop. -/
def resList (op : Model → String → Bool × Model) : Model → List String → List Bool
  | _, [] => []
  | m, item_id :: rest => (op m item_id).1 :: resList op (op m item_id).2 rest

-- fixtures
def itemC2 : Item := { id := "a1", label := "Foo" }
def modelC2 : Model := { identifier := "test.env", items := [("a1", itemC2)] }
def itemC3 : Item := { id := "a1", tags := ["x"] }
def modelC3 : Model := { identifier := "t.env", items := [("a1", itemC3)], tags := ["x"] }
def itemC4 : Item := { id := "a1", label := "Foo", tags := ["red"] }
def modelC4 : Model := Model.add_item (initModel "t.env") itemC4
def fsEmpty : String → Option (List Nat) := fun _ => none
def modelC5bad : Model :=
  Model.add_item
    (Model.set_item_mark_deleted (Model.add_item (initModel "t.env") itemC4) "a1").2
    itemC4

def modelC1 : Model := { identifier := "t.env", items := [("a1", itemC2)] }

def modelC6 : Model :=
  (Model.set_data (Model.add_item (initModel "t.env") itemC4) "a1" Role.label "New").2

theorem dictGet_nil {α : Type} (j : String) : dictGet ([] : List (String × α)) j = none := rfl

theorem dictGet_cons {α : Type} (p : String × α) (d : List (String × α)) (j : String) :
    dictGet (p :: d) j = if p.1 = j then some p.2 else dictGet d j := by
  by_cases h : p.1 = j
  · simp [dictGet, List.find?_cons_of_pos, h]
  · simp [dictGet, List.find?_cons_of_neg, h]

theorem dictGet_map_update {α : Type} (d : List (String × α)) (k j : String) (v : α) :
    dictGet (d.map (fun p => if p.1 == k then (k, v) else p)) j =
      if j = k then (if d.any (fun p => p.1 == k) then some v else none)
      else dictGet d j := by
  induction d with
  | nil => simp [dictGet]
  | cons p rest ih =>
    simp only [List.map_cons, List.any_cons]
    by_cases hpk : p.1 = k
    · by_cases hjk : j = k
      · subst hjk
        simp [dictGet_cons, hpk]
      · rw [if_neg hjk]
        rw [if_neg hjk] at ih
        have h1 : (if (p.1 == k) = true then (k, v) else p) = (k, v) := by simp [hpk]
        rw [h1, dictGet_cons, dictGet_cons, if_neg (fun h => hjk h.symm), ih,
          if_neg (hpk ▸ fun h => hjk h.symm)]
    · by_cases hjk : j = k
      · subst hjk
        have h1 : (if (p.1 == j) = true then (j, v) else p) = p := by simp [hpk]
        rw [if_pos rfl] at ih
        rw [h1, dictGet_cons, if_neg hpk, ih, if_pos rfl]
        by_cases hra : (rest.any fun p => p.1 == j) = true
        · rw [if_pos hra, if_pos (by simp [hra])]
        · rw [if_neg hra, if_neg (by simp [hra, hpk])]
      · have h1 : (if (p.1 == k) = true then (k, v) else p) = p := by simp [hpk]
        rw [if_neg hjk] at ih
        rw [if_neg hjk, h1, dictGet_cons, dictGet_cons, ih]

theorem dictGet_append_single {α : Type} (d : List (String × α)) (k j : String) (v : α) :
    dictGet (d ++ [(k, v)]) j =
      match dictGet d j with
      | some x => some x
      | none => if j = k then some v else none := by
  induction d with
  | nil =>
    show dictGet ([(k, v)]) j = if j = k then some v else none
    rw [dictGet_cons, dictGet_nil]
    by_cases hjk : j = k
    · subst hjk; simp
    · rw [if_neg (fun h => hjk h.symm), if_neg hjk]
  | cons p rest ih =>
    by_cases hpj : p.1 = j <;> simp [dictGet_cons, hpj, ih]

theorem dictGet_insert {α : Type} (d : List (String × α)) (k j : String) (v : α) :
    dictGet (dictInsert d k v) j = if j = k then some v else dictGet d j := by
  simp only [dictInsert]
  split
  · rename_i hany
    rw [dictGet_map_update]
    by_cases hjk : j = k <;> simp [hjk, hany]
  · rename_i hany
    rw [dictGet_append_single]
    by_cases hjk : j = k
    · subst hjk
      have hnone : dictGet d j = none := by
        simp only [List.any_eq_true, beq_iff_eq, not_exists, not_and] at hany
        induction d with
        | nil => rfl
        | cons p rest ih2 =>
          have hp : ¬ p.1 = j := hany p (by simp)
          rw [dictGet_cons, if_neg hp]
          exact ih2 (fun q hq => hany q (by simp [hq]))
      simp [hnone]
    · have hkj : ¬ k = j := fun h => hjk h.symm
      cases hget : dictGet d j <;> simp [hjk]

theorem dictGet_erase {α : Type} (d : List (String × α)) (k j : String) :
    dictGet (dictErase d k) j = if j = k then none else dictGet d j := by
  induction d with
  | nil => simp [dictErase, dictGet_nil]
  | cons p rest ih =>
    simp only [dictErase] at ih ⊢
    by_cases hpk : p.1 = k
    · have h1 : List.filter (fun p => p.1 != k) (p :: rest) =
          List.filter (fun p => p.1 != k) rest := by
        rw [List.filter_cons]
        simp [hpk]
      rw [h1]
      by_cases hjk : j = k
      · subst hjk; rw [ih, if_pos rfl, if_pos rfl]
      · rw [ih, if_neg hjk, if_neg hjk, dictGet_cons,
          if_neg (hpk ▸ fun h => hjk h.symm)]
    · have h1 : List.filter (fun p => p.1 != k) (p :: rest) =
          p :: List.filter (fun p => p.1 != k) rest := by
        rw [List.filter_cons]
        simp [hpk]
      rw [h1]
      by_cases hjk : j = k
      · subst hjk
        rw [dictGet_cons, if_neg hpk, ih, if_pos rfl, if_pos rfl]
      · rw [dictGet_cons, ih, if_neg hjk, if_neg hjk, dictGet_cons]

theorem strLeChars_total (as bs : List Char) :
    strLeChars as bs = true ∨ strLeChars bs as = true := by
  induction as generalizing bs with
  | nil => left; rfl
  | cons a as ih =>
    cases bs with
    | nil => right; rfl
    | cons b bs =>
      simp only [strLeChars]
      by_cases hab : a.toNat < b.toNat
      · left; simp [hab]
      · by_cases hba : b.toNat < a.toNat
        · right; simp [hba, hab]
        · rcases ih bs with h | h <;> simp [hab, hba, h]

theorem strLeChars_trans (as bs cs : List Char)
    (h1 : strLeChars as bs = true) (h2 : strLeChars bs cs = true) :
    strLeChars as cs = true := by
  induction as generalizing bs cs with
  | nil => rfl
  | cons a as ih =>
    cases bs with
    | nil => simp [strLeChars] at h1
    | cons b bs =>
      cases cs with
      | nil => simp [strLeChars] at h2
      | cons c cs =>
        simp only [strLeChars] at h1 h2 ⊢
        split_ifs at h1 h2 ⊢ <;> first | rfl | omega | exact ih bs cs h1 h2

theorem pyStrLe_total (a b : String) : pyStrLe a b = true ∨ pyStrLe b a = true :=
  strLeChars_total a.toList b.toList

theorem pyStrLe_trans {a b c : String} (h1 : pyStrLe a b = true)
    (h2 : pyStrLe b c = true) : pyStrLe a c = true :=
  strLeChars_trans a.toList b.toList c.toList h1 h2

theorem pyInsert_perm (x : String) (l : List String) :
    (pyInsert x l).Perm (x :: l) := by
  induction l with
  | nil => simp [pyInsert]
  | cons y ys ih =>
    simp only [pyInsert]
    split
    · exact List.Perm.refl _
    · exact (ih.cons y).trans (List.Perm.swap x y ys)

theorem pySorted_perm (l : List String) : (pySorted l).Perm l := by
  induction l with
  | nil => simp [pySorted]
  | cons x xs ih =>
    exact (pyInsert_perm x (pySorted xs)).trans (ih.cons x)

theorem pyInsert_sorted (x : String) (l : List String) (h : StrSorted l) :
    StrSorted (pyInsert x l) := by
  induction l with
  | nil => simp [pyInsert, StrSorted]
  | cons y ys ih =>
    simp only [pyInsert]
    split
    · rename_i hxy
      rw [StrSorted, List.pairwise_cons]
      refine ⟨?_, h⟩
      intro b hb
      rcases List.mem_cons.mp hb with rfl | hb
      · exact hxy
      · rw [StrSorted, List.pairwise_cons] at h
        exact pyStrLe_trans hxy (h.1 b hb)
    · rename_i hxy
      have hyx : pyStrLe y x = true := by
        rcases pyStrLe_total x y with h1 | h1
        · exact absurd h1 hxy
        · exact h1
      rw [StrSorted, List.pairwise_cons] at h
      rw [StrSorted, List.pairwise_cons]
      refine ⟨?_, ih h.2⟩
      intro b hb
      have hb2 : b ∈ x :: ys := ((pyInsert_perm x ys).mem_iff).mp hb
      rcases List.mem_cons.mp hb2 with rfl | hb2
      · exact hyx
      · exact h.1 b hb2

theorem pySorted_sorted (l : List String) : StrSorted (pySorted l) := by
  induction l with
  | nil => simp [pySorted, StrSorted]
  | cons x xs ih => exact pyInsert_sorted x (pySorted xs) ih

theorem pySorted_count (l : List String) (t : String) :
    (pySorted l).count t = l.count t :=
  (pySorted_perm l).count_eq t

/-- Registering tags (the loop at the end of `add_item`) touches only the
vocabulary. -/
theorem add_tag_fold_fields (l : List String) (m : Model) :
    (l.foldl (fun acc t => (Model.add_tag acc t).2) m).items = m.items ∧
    (l.foldl (fun acc t => (Model.add_tag acc t).2) m).items_updated = m.items_updated ∧
    (l.foldl (fun acc t => (Model.add_tag acc t).2) m).items_deleted = m.items_deleted ∧
    (l.foldl (fun acc t => (Model.add_tag acc t).2) m).identifier = m.identifier := by
  induction l generalizing m with
  | nil => exact ⟨rfl, rfl, rfl, rfl⟩
  | cons t rest ih =>
    simp only [List.foldl_cons]
    have step : ((Model.add_tag m t).2).items = m.items ∧
        ((Model.add_tag m t).2).items_updated = m.items_updated ∧
        ((Model.add_tag m t).2).items_deleted = m.items_deleted ∧
        ((Model.add_tag m t).2).identifier = m.identifier := by
      simp only [Model.add_tag]
      split <;> exact ⟨rfl, rfl, rfl, rfl⟩
    obtain ⟨s1, s2, s3, s4⟩ := step
    obtain ⟨i1, i2, i3, i4⟩ := ih (Model.add_tag m t).2
    exact ⟨i1.trans s1, i2.trans s2, i3.trans s3, i4.trans s4⟩

theorem add_item_fields (m : Model) (it : Item) :
    (Model.add_item m it).items = dictInsert m.items it.id it ∧
    (Model.add_item m it).items_updated = m.items_updated ∧
    (Model.add_item m it).items_deleted = m.items_deleted := by
  simp only [Model.add_item]
  obtain ⟨h1, h2, h3, _⟩ := add_tag_fold_fields it.tags
    { m with items := dictInsert m.items it.id it }
  exact ⟨h1, h2, h3⟩

theorem delete_tag_fields {m m2 : Model} {t : String} {b r : Bool}
    (h : Model.delete_tag m t b = some (r, m2)) :
    m2.items = m.items ∧ m2.items_updated = m.items_updated ∧
    m2.items_deleted = m.items_deleted := by
  simp only [Model.delete_tag] at h
  split at h
  · cases h; exact ⟨rfl, rfl, rfl⟩
  · split at h
    · cases h
    · split at h <;> (cases h; exact ⟨rfl, rfl, rfl⟩)

theorem setAdd_nodup {s : List String} (x : String) (h : s.Nodup) :
    (setAdd s x).Nodup := by
  simp only [setAdd]
  split
  · exact h
  · rename_i hx
    simp [List.nodup_append, h, hx]

/-- The dirty-set never holds duplicate ids in any reachable state. -/
theorem reach_items_updated_nodup {m : Model} (h : Reach m) :
    m.items_updated.Nodup := by
  induction h with
  | init identifier => exact List.nodup_nil
  | add_item it _ ih =>
    rename_i m0 _
    rw [(add_item_fields m0 it).2.1]
    exact ih
  | set_data item_id r v _ ih =>
    rename_i m0 _
    simp only [Model.set_data]
    cases hget : dictGet m0.items item_id with
    | none => exact ih
    | some item =>
      by_cases heq2 : pyEqRole r (getRole item r) v = true
      · simp only [if_pos heq2]; exact ih
      · simp only [if_neg heq2]; exact setAdd_nodup item_id ih
  | mark_deleted item_id _ ih =>
    rename_i m0 _
    simp only [Model.set_item_mark_deleted]
    cases hget : dictGet m0.items item_id with
    | none => exact ih
    | some item => exact ih
  | unmark_deleted item_id _ ih =>
    rename_i m0 _
    simp only [Model.set_item_mark_undeleted]
    cases hget : dictGet m0.items_deleted item_id with
    | none => exact ih
    | some item => exact ih
  | add_tag t _ ih =>
    rename_i m0 _
    simp only [Model.add_tag]
    split
    · exact ih
    · exact ih
  | delete_tag _ heq ih =>
    rw [(delete_tag_fields heq).2.1]
    exact ih
  | drain _ ih => exact List.nodup_nil

/-- Soft-delete bookkeeping keeps the live and deleted mappings disjoint in
every state reachable without re-adding a soft-deleted id. -/
theorem reachSafe_disjoint {m : Model} (h : ReachSafe m) : liveDeletedDisjoint m := by
  induction h with
  | init identifier => intro j; left; rfl
  | add_item it _ hdel ih =>
    rename_i m0 _
    intro j
    obtain ⟨h1, _, h3⟩ := add_item_fields m0 it
    rw [h1, h3, dictGet_insert]
    by_cases hj : j = it.id
    · right; rw [hj]; exact hdel
    · rw [if_neg hj]; exact ih j
  | set_data item_id r v _ ih =>
    rename_i m0 _
    intro j
    simp only [Model.set_data]
    cases hget : dictGet m0.items item_id with
    | none => exact ih j
    | some item =>
      by_cases heq2 : pyEqRole r (getRole item r) v = true
      · simp only [if_pos heq2]; exact ih j
      · simp only [if_neg heq2]
        show dictGet (dictInsert m0.items item_id (setRole item r v)) j = none ∨
          dictGet m0.items_deleted j = none
        rw [dictGet_insert]
        by_cases hj : j = item_id
        · rcases ih item_id with hl | hr2
          · rw [hget] at hl; cases hl
          · right; rw [hj]; exact hr2
        · rw [if_neg hj]; exact ih j
  | mark_deleted item_id _ ih =>
    rename_i m0 _
    intro j
    simp only [Model.set_item_mark_deleted]
    cases hget : dictGet m0.items item_id with
    | none => exact ih j
    | some item =>
      show dictGet (dictErase m0.items item_id) j = none ∨
        dictGet (dictInsert m0.items_deleted item_id item) j = none
      rw [dictGet_erase, dictGet_insert]
      by_cases hj : j = item_id
      · left; rw [if_pos hj]
      · rw [if_neg hj, if_neg hj]; exact ih j
  | unmark_deleted item_id _ ih =>
    rename_i m0 _
    intro j
    simp only [Model.set_item_mark_undeleted]
    cases hget : dictGet m0.items_deleted item_id with
    | none => exact ih j
    | some item =>
      show dictGet (dictInsert m0.items item_id item) j = none ∨
        dictGet (dictErase m0.items_deleted item_id) j = none
      rw [dictGet_erase, dictGet_insert]
      by_cases hj : j = item_id
      · right; rw [if_pos hj]
      · rw [if_neg hj, if_neg hj]; exact ih j
  | add_tag t _ ih =>
    rename_i m0 _
    intro j
    simp only [Model.add_tag]
    split
    · exact ih j
    · exact ih j
  | delete_tag _ heq ih =>
    intro j
    obtain ⟨h1, _, h3⟩ := delete_tag_fields heq
    rw [h1, h3]
    exact ih j
  | drain _ ih => intro j; exact ih j

theorem batch_fold_spec (op : Model → String → Bool × Model)
    (ids : List String) (bs : List Bool) (m : Model) :
    (ids.foldl (fun (acc : List Bool × Model) item_id =>
        ((acc.1 ++ [(op acc.2 item_id).1], (op acc.2 item_id).2) : List Bool × Model))
      (bs, m)) =
    (bs ++ resList op m ids, ids.foldl (fun acc item_id => (op acc item_id).2) m) := by
  induction ids generalizing bs m with
  | nil => simp [resList]
  | cons item_id rest ih =>
    simp only [List.foldl_cons, resList]
    rw [ih]
    simp [List.append_assoc]

set_option maxRecDepth 40000 in
/-- C2: the save/load round-trip fails on the code as written: `Model.save`
stores the JSON text with every `"` replaced by `|||`, but `Model.load`
line 215 calls `json.loads` on that sentinel-escaped text BEFORE undoing
the replacement (`json.loads(data).replace('|||', '"')`), so loading raises
`json.JSONDecodeError` and no catalog state is reproduced.  The second
conjunct confirms the claim describes the intent: parsing after first
reversing the sentinel recovers exactly the serialized identifier, item
ids, field values and tags. -/
theorem save_load_roundtrip_bug :
    load_parse (save_stored modelC2) = none ∧
    jsonLoads (unescapeTriplePipe (save_stored modelC2)) = some (jvalOfModel modelC2) := by
  constructor <;> rfl

set_option maxRecDepth 4000 in
/-- C3: `deleteTag` with `forceIfAssigned = false` on an assigned tag is a
no-op returning `False` as claimed, but with `forceIfAssigned = true` on an
assigned tag the code raises `ValueError` (line 100 calls
`item.tags.remove(item)` with the `Item` object instead of the tag string)
rather than unassigning the tag and removing it from the vocabulary. -/
theorem deleteTag_assigned_raises :
    AssetLibrary.deleteTag modelC3 "x" false = some (false, modelC3) ∧
    AssetLibrary.deleteTag modelC3 "x" true = none := by
  constructor <;> decide

set_option maxRecDepth 4000 in
/-- C4 counterexample: after adding item `a1` with tags `["red"]` to an
empty catalog, the adapter's `tags("a1")` returns `("red", "red")` — the
sorted concatenation keeps the duplicate — not the claimed one-element
union `("red",)`. -/
theorem tags_union_counterexample :
    (AssetLibrary.tags fsEmpty modelC4 "a1").1 = some ["red", "red"] ∧
    (AssetLibrary.tags fsEmpty modelC4 "a1").1 ≠ some ["red"] := by
  constructor <;> decide

set_option maxRecDepth 4000 in
/-- C5 counterexample: add an item, soft-delete it, then add an item with
the same id again — a state reachable through the listed operations in
which id `a1` is simultaneously present in the live and deleted mappings. -/
theorem live_deleted_overlap_counterexample :
    Reach modelC5bad ∧ ¬ liveDeletedDisjoint modelC5bad := by
  constructor
  · exact Reach.add_item itemC4
      (Reach.mark_deleted "a1" (Reach.add_item itemC4 (Reach.init "t.env")))
  · intro hdisj
    rcases hdisj "a1" with h1 | h1 <;> exact absurd h1 (by decide)

theorem getRole_setRole_same (it : Item) (r : Role) (v : RoleType r) :
    getRole (setRole it r v) r = v := by
  cases r <;> rfl

theorem getRole_setRole_ne (it : Item) (r r2 : Role) (v : RoleType r)
    (h : r2 ≠ r) : getRole (setRole it r v) r2 = getRole it r2 := by
  cases r <;> cases r2 <;> first | rfl | exact absurd rfl h

theorem setAdd_mem (s : List String) (x j : String) :
    j ∈ setAdd s x ↔ j ∈ s ∨ j = x := by
  simp only [setAdd]
  split
  · rename_i hx
    constructor
    · exact Or.inl
    · rintro (h | rfl)
      · exact h
      · exact hx
  · simp [List.mem_append]

/-- C1: `setField` is a no-op returning `False` when the id is absent from
the live mapping or when the new value equals (Python `==`) the field's
current value — in both cases the whole catalog state, dirty-set included,
is untouched; otherwise it stores the new value in that field (leaving
every other field, every other item, the deleted mapping and the
vocabulary unchanged), enqueues the id into the dirty-set, and returns
`True`. -/
theorem setField_spec (m : Model) (item_id : String) (r : Role) (v : RoleType r) :
    (dictGet m.items item_id = none → Model.set_data m item_id r v = (false, m)) ∧
    (∀ item, dictGet m.items item_id = some item →
      (pyEqRole r (getRole item r) v = true →
        Model.set_data m item_id r v = (false, m)) ∧
      (pyEqRole r (getRole item r) v = false →
        (Model.set_data m item_id r v).1 = true ∧
        dictGet (Model.set_data m item_id r v).2.items item_id =
          some (setRole item r v) ∧
        getRole (setRole item r v) r = v ∧
        (∀ r2 : Role, r2 ≠ r →
          getRole (setRole item r v) r2 = getRole item r2) ∧
        (∀ j, j ≠ item_id →
          dictGet (Model.set_data m item_id r v).2.items j = dictGet m.items j) ∧
        (∀ j, j ∈ (Model.set_data m item_id r v).2.items_updated ↔
          j ∈ m.items_updated ∨ j = item_id) ∧
        (Model.set_data m item_id r v).2.items_deleted = m.items_deleted ∧
        (Model.set_data m item_id r v).2.tags = m.tags)) := by
  constructor
  · intro hnone
    simp only [Model.set_data, hnone]
  · intro item hget
    constructor
    · intro heq
      simp only [Model.set_data, hget, if_pos heq]
    · intro hne
      simp only [Model.set_data, hget, hne, Bool.false_eq_true, if_false]
      refine ⟨trivial, ?_, getRole_setRole_same item r v,
        fun r2 h => getRole_setRole_ne item r r2 v h, ?_, ?_, trivial, trivial⟩
      · rw [dictGet_insert, if_pos rfl]
      · intro j hj
        rw [dictGet_insert, if_neg hj]
      · intro j
        exact setAdd_mem m.items_updated item_id j

/-- Witness for C1 at a concrete catalog: setting `label` of the live item
`a1` from `"Foo"` to `"Bar"` succeeds, stores the new value, and enqueues
the id. -/
theorem setField_spec_witness :
    (Model.set_data modelC1 "a1" Role.label "Bar").1 = true ∧
    dictGet (Model.set_data modelC1 "a1" Role.label "Bar").2.items "a1" =
      some (setRole itemC2 Role.label "Bar") := by
  have h := ((setField_spec modelC1 "a1" Role.label "Bar").2 itemC2
    (by decide)).2 (by decide)
  exact ⟨h.1, h.2.1⟩

theorem get_data_tags_of_live (fs : String → Option (List Nat)) (m : Model)
    (item_id : String) (item : Item) (h : dictGet m.items item_id = some item) :
    Model.get_data fs m item_id Role.tags = (some item.tags, m) := by
  simp only [Model.get_data, h]
  rfl

/-- C4 amended: for a live, non-empty item id, the adapter's `tags`
returns the code-point-lexicographically sorted CONCATENATION of the
item's own tags and the full vocabulary — duplicates are kept (each tag
occurs as many times as in the item's list plus the vocabulary), not the
duplicate-free union the claim stated. -/
theorem tags_sorted_concat (fs : String → Option (List Nat)) (m : Model)
    (item_id : String) (item : Item) (h1 : item_id ≠ "")
    (h2 : dictGet m.items item_id = some item) :
    ∃ res, (AssetLibrary.tags fs m item_id).1 = some res ∧
      StrSorted res ∧
      (∀ t, res.count t = item.tags.count t + m.tags.count t) := by
  refine ⟨pySorted (item.tags ++ m.tags), ?_, pySorted_sorted _, ?_⟩
  · simp only [AssetLibrary.tags, if_neg h1, get_data_tags_of_live fs m item_id item h2,
      Model.get_tags]
  · intro t
    rw [pySorted_count, List.count_append]

/-- Witness for C4's amended statement on the one-item catalog: the
hypotheses hold for id `a1`, and the sorted-concatenation description
applies to it. -/
theorem tags_sorted_concat_witness :
    ("a1" : String) ≠ "" ∧ dictGet modelC4.items "a1" = some itemC4 ∧
    ∃ res, (AssetLibrary.tags fsEmpty modelC4 "a1").1 = some res ∧
      StrSorted res ∧
      (∀ t, res.count t = itemC4.tags.count t + modelC4.tags.count t) :=
  ⟨by decide, by decide,
    tags_sorted_concat fsEmpty modelC4 "a1" itemC4 (by decide) (by decide)⟩

/-- C5 amended: in every state reachable through the catalog mutators in
which `add_item` is never invoked with an id that is currently
soft-deleted, each id is present in at most one of the live and deleted
mappings.  (Unrestricted re-adding violates this, see the counterexample.) -/
theorem reach_safe_live_deleted_disjoint {m : Model} (h : ReachSafe m)
    (j : String) :
    dictGet m.items j = none ∨ dictGet m.items_deleted j = none :=
  reachSafe_disjoint h j

/-- Witness for C5's amended statement at a freshly constructed catalog. -/
theorem reach_safe_live_deleted_disjoint_witness :
    dictGet (initModel "w.env").items "a1" = none ∨
    dictGet (initModel "w.env").items_deleted "a1" = none :=
  reach_safe_live_deleted_disjoint (ReachSafe.init "w.env") "a1"

/-- C6: `drainUpdatedIds` returns exactly the ids currently in the
dirty-set (each at most once, in every reachable state), and clears it, so
an immediate second call returns the empty tuple. -/
theorem drainUpdatedIds_spec {m : Model} (h : Reach m) :
    (∀ j, j ∈ (Model.get_item_updated_ids m).1 ↔ j ∈ m.items_updated) ∧
    (Model.get_item_updated_ids m).1.Nodup ∧
    (Model.get_item_updated_ids ((Model.get_item_updated_ids m).2)).1 = [] :=
  ⟨fun _ => Iff.rfl, reach_items_updated_nodup h, rfl⟩

/-- Witness for C6 at a reachable catalog whose dirty-set is non-empty
(one item added, its label changed). -/
theorem drainUpdatedIds_spec_witness :
    (Model.get_item_updated_ids modelC6).1.Nodup ∧
    (Model.get_item_updated_ids ((Model.get_item_updated_ids modelC6).2)).1 = [] := by
  have h := drainUpdatedIds_spec
    (Reach.set_data "a1" Role.label "New" (Reach.add_item itemC4 (Reach.init "t.env")))
  exact ⟨h.2.1, h.2.2⟩

/-- C7: soft-deleting a live id and then restoring it puts the very same
item record (all fields equal) back into the live mapping; `markDeleted`
on an id absent from the live mapping, and `unmarkDeleted` on an id absent
from the deleted mapping, return `False` and leave the whole state
unchanged. -/
theorem mark_unmark_roundtrip :
    (∀ (m : Model) (item_id : String) (item : Item),
      dictGet m.items item_id = some item →
      dictGet ((Model.set_item_mark_undeleted
        (Model.set_item_mark_deleted m item_id).2 item_id).2).items item_id =
        some item) ∧
    (∀ (m : Model) (item_id : String),
      dictGet m.items item_id = none →
      Model.set_item_mark_deleted m item_id = (false, m)) ∧
    (∀ (m : Model) (item_id : String),
      dictGet m.items_deleted item_id = none →
      Model.set_item_mark_undeleted m item_id = (false, m)) := by
  refine ⟨?_, ?_, ?_⟩
  · intro m item_id item hget
    simp only [Model.set_item_mark_deleted, hget]
    have h2 : dictGet (dictInsert m.items_deleted item_id item) item_id =
        some item := by
      rw [dictGet_insert, if_pos rfl]
    simp only [Model.set_item_mark_undeleted, h2]
    rw [dictGet_insert, if_pos rfl]
  · intro m item_id hnone
    simp only [Model.set_item_mark_deleted, hnone]
  · intro m item_id hnone
    simp only [Model.set_item_mark_undeleted, hnone]

/-- Witness for C7 on the one-item catalog: the round trip restores the
item record of `a1`, and both absent-id branches answer `(False, unchanged)`. -/
theorem mark_unmark_roundtrip_witness :
    dictGet ((Model.set_item_mark_undeleted
      (Model.set_item_mark_deleted modelC4 "a1").2 "a1").2).items "a1" =
      some itemC4 ∧
    Model.set_item_mark_deleted modelC4 "zz" = (false, modelC4) ∧
    Model.set_item_mark_undeleted modelC4 "a1" = (false, modelC4) :=
  ⟨mark_unmark_roundtrip.1 modelC4 "a1" itemC4 (by decide),
   mark_unmark_roundtrip.2.1 modelC4 "zz" (by decide),
   mark_unmark_roundtrip.2.2 modelC4 "a1" (by decide)⟩

/-- C8: the batch deletion-marking adapters report `True` exactly when
every per-id call in the sequential pass succeeded, while the resulting
state is always the one obtained by applying every per-id mutation in
order — successes before a failure stay applied, with no rollback. -/
theorem markItemsForDeletion_batch_spec (m : Model) (item_ids : List String) :
    ((AssetLibrary.markItemsForDeletion m item_ids).1 = allMarkOk m item_ids) ∧
    ((AssetLibrary.markItemsForDeletion m item_ids).2 = applyMarks m item_ids) ∧
    ((AssetLibrary.unmarkItemsForDeletion m item_ids).1 = allUnmarkOk m item_ids) ∧
    ((AssetLibrary.unmarkItemsForDeletion m item_ids).2 = applyUnmarks m item_ids) := by
  have hall : ∀ (op : Model → String → Bool × Model)
      (allOk : Model → List String → Bool),
      (∀ m2, allOk m2 [] = true) →
      (∀ m2 i rest, allOk m2 (i :: rest) = ((op m2 i).1 && allOk (op m2 i).2 rest)) →
      ∀ ids m2, (resList op m2 ids).all (fun b => b) = allOk m2 ids := by
    intro op allOk hnil hcons ids
    induction ids with
    | nil => intro m2; simp [resList, hnil]
    | cons i rest ih =>
      intro m2
      rw [resList, List.all_cons, hcons, ih]
  constructor
  · show (AssetLibrary.markItemsForDeletion m item_ids).1 = allMarkOk m item_ids
    simp only [AssetLibrary.markItemsForDeletion]
    rw [batch_fold_spec Model.set_item_mark_deleted item_ids [] m]
    simp only [List.nil_append]
    exact hall Model.set_item_mark_deleted allMarkOk (fun _ => rfl)
      (fun _ _ _ => rfl) item_ids m
  constructor
  · show (AssetLibrary.markItemsForDeletion m item_ids).2 = applyMarks m item_ids
    simp only [AssetLibrary.markItemsForDeletion]
    rw [batch_fold_spec Model.set_item_mark_deleted item_ids [] m]
    rfl
  constructor
  · show (AssetLibrary.unmarkItemsForDeletion m item_ids).1 = allUnmarkOk m item_ids
    simp only [AssetLibrary.unmarkItemsForDeletion]
    rw [batch_fold_spec Model.set_item_mark_undeleted item_ids [] m]
    simp only [List.nil_append]
    exact hall Model.set_item_mark_undeleted allUnmarkOk (fun _ => rfl)
      (fun _ _ _ => rfl) item_ids m
  · show (AssetLibrary.unmarkItemsForDeletion m item_ids).2 = applyUnmarks m item_ids
    simp only [AssetLibrary.unmarkItemsForDeletion]
    rw [batch_fold_spec Model.set_item_mark_undeleted item_ids [] m]
    rfl

/-- C9: on an id absent from the live mapping, `getField` of
`thumbnail_file_content` answers the empty-bytes default (and leaves the
state untouched) instead of the `None` not-found indicator it returns for
every other field name on an absent id; no exception path exists. -/
theorem getField_absent_thumbnail (fs : String → Option (List Nat)) (m : Model)
    (item_id : String) (h : dictGet m.items item_id = none) :
    (Model.get_data fs m item_id Role.thumbnail_file_content).1 = some [] ∧
    (Model.get_data fs m item_id Role.thumbnail_file_content).2 = m ∧
    (∀ r : Role, r ≠ Role.thumbnail_file_content →
      Model.get_data fs m item_id r = (none, m)) := by
  refine ⟨?_, ?_, ?_⟩
  · simp only [Model.get_data, h]
  · simp only [Model.get_data, h]
  · intro r hr
    cases r <;> first | exact absurd rfl hr | (simp only [Model.get_data, h])

/-- Witness for C9 on an empty catalog and an unknown id: thumbnail bytes
come back empty while `label` comes back as the not-found `None`. -/
theorem getField_absent_thumbnail_witness :
    (Model.get_data fsEmpty (initModel "e.env") "zz" Role.thumbnail_file_content).1 =
      some [] ∧
    Model.get_data fsEmpty (initModel "e.env") "zz" Role.label =
      (none, initModel "e.env") := by
  have h := getField_absent_thumbnail fsEmpty (initModel "e.env") "zz" (by decide)
  exact ⟨h.1, h.2.2 Role.label (by decide)⟩

/-- C10: soft-deleting or restoring an id never touches the dirty-set (so
a later `drainUpdatedIds` never reports it), never touches the tag
vocabulary, and leaves every other id's entries in both mappings — hence
all fields of every other item — unchanged. -/
theorem mark_unmark_frame (m : Model) (item_id : String) :
    (Model.set_item_mark_deleted m item_id).2.items_updated = m.items_updated ∧
    (Model.set_item_mark_undeleted m item_id).2.items_updated = m.items_updated ∧
    (Model.set_item_mark_deleted m item_id).2.tags = m.tags ∧
    (Model.set_item_mark_undeleted m item_id).2.tags = m.tags ∧
    (Model.get_item_updated_ids (Model.set_item_mark_deleted m item_id).2).1 =
      (Model.get_item_updated_ids m).1 ∧
    (Model.get_item_updated_ids (Model.set_item_mark_undeleted m item_id).2).1 =
      (Model.get_item_updated_ids m).1 ∧
    (∀ j, j ≠ item_id →
      dictGet (Model.set_item_mark_deleted m item_id).2.items j =
        dictGet m.items j ∧
      dictGet (Model.set_item_mark_deleted m item_id).2.items_deleted j =
        dictGet m.items_deleted j ∧
      dictGet (Model.set_item_mark_undeleted m item_id).2.items j =
        dictGet m.items j ∧
      dictGet (Model.set_item_mark_undeleted m item_id).2.items_deleted j =
        dictGet m.items_deleted j) := by
  cases hd : dictGet m.items item_id <;>
    cases hu : dictGet m.items_deleted item_id <;>
    simp only [Model.set_item_mark_deleted, Model.set_item_mark_undeleted, hd, hu] <;>
    refine ⟨?_, ?_, ?_, ?_, ?_, ?_, fun j hj => ⟨?_, ?_, ?_, ?_⟩⟩ <;>
    first
      | trivial
      | rfl
      | (rw [dictGet_erase, if_neg hj])
      | (rw [dictGet_insert, if_neg hj])

/-- Witness for C10: soft-deleting `a1` leaves the entry of the other id
`zz` and the dirty-set unchanged. -/
theorem mark_unmark_frame_witness :
    dictGet (Model.set_item_mark_deleted modelC4 "a1").2.items "zz" =
      dictGet modelC4.items "zz" ∧
    (Model.set_item_mark_deleted modelC4 "a1").2.items_updated =
      modelC4.items_updated := by
  have h := mark_unmark_frame modelC4 "a1"
  exact ⟨(h.2.2.2.2.2.2 "zz" (by decide)).1, h.1⟩
